import Mathlib

/-!
Verification of the etcd membership subsystem (`etcdserver/member.go`).

Go strings are byte sequences; we model them as `List Nat` (each entry a
byte value) so that Go's byte-wise string comparison and SHA-1 hashing are
faithful.  Machine words are `Nat` with explicit reduction mod `2^32` /
`2^64` where the Go code relies on fixed-width arithmetic.
-/

set_option maxRecDepth 16384

/-- A Go string, as its sequence of bytes. -/
abbrev GoStr : Type := List Nat

/-- Bytes of an ASCII literal, for writing concrete test inputs. -/
def gs (s : String) : GoStr := s.data.map Char.toNat

/-- Go's byte-wise string comparison `a <= b` (as used by `sort.Strings`). -/
def strLe : GoStr → GoStr → Bool
  | [], _ => true
  | _ :: _, [] => false
  | a :: s, b :: t => if a < b then true else if b < a then false else strLe s t

/-- The ordering relation underlying `sort.Strings`. -/
def StrLeR (a b : GoStr) : Prop := strLe a b = true

instance : DecidableRel StrLeR := fun a b => instDecidableEqBool (strLe a b) true

/-- `sort.Strings`: sort a string slice ascending by byte-wise comparison. -/
def sortStrings (l : List GoStr) : List GoStr := l.insertionSort StrLeR

/-- Reduce a value to a 32-bit machine word. -/
def w32 (x : Nat) : Nat := x % 4294967296

/-- Rotate a 32-bit word left by `s` bits. -/
def rotl (s x : Nat) : Nat := w32 (x * 2 ^ s + x / 2 ^ (32 - s))

/-- Big-endian bytes of `x`, `k` bytes wide (as in `encoding/binary`). -/
def toBytesBE : Nat → Nat → List Nat
  | 0, _ => []
  | k + 1, x => toBytesBE k (x / 256) ++ [x % 256]

/-- `binary.BigEndian.Uint64` over the first 8 bytes of a byte slice. -/
def beUint64 (bs : List Nat) : Nat := (bs.take 8).foldl (fun acc b => acc * 256 + b) 0

/-- Split a byte sequence into 64-byte chunks (SHA-1 block size). -/
def chunks64 (l : List Nat) : List (List Nat) :=
  match l with
  | [] => []
  | b :: rest => (b :: rest).take 64 :: chunks64 (rest.drop 63)
  termination_by l.length
  decreasing_by simp [List.length_drop]; omega

/-- Group bytes into big-endian 32-bit words. -/
def words16 : List Nat → List Nat
  | b1 :: b2 :: b3 :: b4 :: rest => (((b1 * 256 + b2) * 256 + b3) * 256 + b4) :: words16 rest
  | _ => []

/-- Extend the 16 words of a SHA-1 block, one word per step of fuel. -/
def sha1Extend : Nat → List Nat → List Nat
  | 0, ws => ws
  | k + 1, ws =>
    let n := ws.length
    let w := rotl 1 (Nat.xor (Nat.xor (ws.getD (n - 3) 0) (ws.getD (n - 8) 0))
      (Nat.xor (ws.getD (n - 14) 0) (ws.getD (n - 16) 0)))
    sha1Extend k (ws ++ [w])

/-- One SHA-1 round: update the five-word state with round index `i` and word `w`. -/
def sha1Round (i w : Nat) : Nat × Nat × Nat × Nat × Nat → Nat × Nat × Nat × Nat × Nat :=
  fun st =>
    match st with
    | (a, b, c, d, e) =>
      let fk : Nat × Nat :=
        if i < 20 then (Nat.lor (Nat.land b c) (Nat.land (4294967295 - b) d), 1518500249)
        else if i < 40 then (Nat.xor (Nat.xor b c) d, 1859775393)
        else if i < 60 then
          (Nat.lor (Nat.lor (Nat.land b c) (Nat.land b d)) (Nat.land c d), 2400959708)
        else (Nat.xor (Nat.xor b c) d, 3395469782)
      let temp := w32 (rotl 5 a + fk.1 + e + fk.2 + w)
      (temp, a, rotl 30 b, c, d)

/-- Process one 64-byte chunk, updating the five SHA-1 state words. -/
def sha1Chunk (hs : Nat × Nat × Nat × Nat × Nat) (chunk : List Nat) : Nat × Nat × Nat × Nat × Nat :=
  let ws := sha1Extend 64 (words16 chunk)
  let st := (List.range 80).foldl (fun st i => sha1Round i (ws.getD i 0) st) hs
  match hs, st with
  | (h0, h1, h2, h3, h4), (a, b, c, d, e) =>
    (w32 (h0 + a), w32 (h1 + b), w32 (h2 + c), w32 (h3 + d), w32 (h4 + e))

/-- `sha1.Sum`: the 20-byte SHA-1 digest of a byte sequence. -/
def sha1 (msg : List Nat) : List Nat :=
  let l := msg.length
  let padded := msg ++ 128 :: List.replicate ((119 - l % 64) % 64) 0 ++ toBytesBE 8 (l * 8)
  let hs := (chunks64 padded).foldl sha1Chunk (1732584193, 4023233417, 2562383102, 271733878, 3285377520)
  match hs with
  | (h0, h1, h2, h3, h4) =>
    toBytesBE 4 h0 ++ toBytesBE 4 h1 ++ toBytesBE 4 h2 ++ toBytesBE 4 h3 ++ toBytesBE 4 h4

/-- `fmt.Sprintf("%d", t)` for a signed 64-bit value: its decimal ASCII bytes. -/
def decimalBytes (t : Int) : GoStr :=
  if t < 0 then 45 :: (Nat.toDigits 10 (-t).toNat).map Char.toNat
  else (Nat.toDigits 10 t.toNat).map Char.toNat

/-- `RaftAttributes`: the raft related attributes of a member.  The Go field
`PeerURLs []string` distinguishes a nil slice from an empty one, hence `Option`. -/
structure RaftAttributes where
  PeerURLs : Option (List GoStr)
deriving DecidableEq

/-- `Attributes`: the non-raft attributes of a member (`Name string`,
`ClientURLs []string`). -/
structure Attributes where
  Name : GoStr
  ClientURLs : Option (List GoStr)
deriving DecidableEq

/-- `Member`: identity plus the two embedded attribute structs.  `types.ID` is a
`uint64`, modelled as `Nat` (every value the code stores is below `2^64`). -/
structure Member where
  ID : Nat
  raftAttributes : RaftAttributes
  attributes : Attributes
deriving DecidableEq

/-- The promoted field `m.PeerURLs` of the embedded `RaftAttributes`. -/
def Member.PeerURLs (m : Member) : Option (List GoStr) := m.raftAttributes.PeerURLs

/-- The promoted field `m.Name` of the embedded `Attributes`. -/
def Member.Name (m : Member) : GoStr := m.attributes.Name

/-- The promoted field `m.ClientURLs` of the embedded `Attributes`. -/
def Member.ClientURLs (m : Member) : Option (List GoStr) := m.attributes.ClientURLs

/-- `NewMember`: build a member and derive its ID.  The Go code sets
`m.PeerURLs` to a fresh string slice of the caller's URLs, then runs
`sort.Strings(m.PeerURLs)` in place — so the record keeps the sorted
sequence — then hashes the sorted URLs, the cluster name, and (when `now`
is non-nil) the decimal Unix timestamp, and takes the first 8 digest bytes
big-endian as the ID. -/
def NewMember (name : GoStr) (peerURLs : List GoStr) (clusterName : GoStr) (now : Option Int) : Member :=
  let sortedPeerURLs := sortStrings peerURLs
  let b0 := sortedPeerURLs.foldl (fun acc p => acc ++ p) ([] : List Nat)
  let b1 := b0 ++ clusterName
  let b2 := match now with
    | some t => b1 ++ decimalBytes t
    | none => b1
  let hash := sha1 b2
  { ID := beUint64 hash
  , raftAttributes := { PeerURLs := some sortedPeerURLs }
  , attributes := { Name := name, ClientURLs := none } }

/-- The identifier-derivation algorithm as the specification words it: sort
the routing endpoints lexicographically, concatenate the sorted endpoint
strings, append the cluster salt, append the decimal string of the Unix
timestamp if a creation time is given, take the SHA-1 digest, and read its
first 8 bytes as a big-endian unsigned 64-bit integer.  The display name is
part of the contract signature but not of the hash input. -/
def deriveIdentity (displayName : GoStr) (routingEndpoints : List GoStr) (clusterSalt : GoStr)
    (creationTime : Option Int) : Nat :=
  let sorted := sortStrings routingEndpoints
  let msg := sorted.flatten ++ clusterSalt ++
    (match creationTime with
     | some t => decimalBytes t
     | none => [])
  beUint64 ((sha1 msg).take 8)

/-- Go `make([]string, len(l))` followed by `copy`: a fresh slice holding the
same elements. -/
def copySlice (l : List GoStr) : List GoStr := l.map (fun s => s)

/-- `(*Member).Clone`: nil receiver yields nil; otherwise copy the ID and name,
and copy each endpoint slice only when it is non-nil, leaving it nil otherwise. -/
def Clone (m : Option Member) : Option Member :=
  match m with
  | none => none
  | some m =>
    let mm : Member :=
      { ID := m.ID
      , raftAttributes := { PeerURLs := none }
      , attributes := { Name := m.Name, ClientURLs := none } }
    let mm := match m.PeerURLs with
      | some ps => { mm with raftAttributes := { PeerURLs := some (copySlice ps) } }
      | none => mm
    let mm := match m.ClientURLs with
      | some cs => { mm with attributes := { mm.attributes with ClientURLs := some (copySlice cs) } }
      | none => mm
    some mm

/-- Outcome of `PickPeerURL`: either the `log.Panicf` abort or a chosen URL. -/
inductive PickResult where
  | panicked (msg : GoStr)
  | picked (u : GoStr)
deriving DecidableEq

/-- `(*Member).PickPeerURL`: panic when the member has no peer URLs, otherwise
index the slice by `rand.Intn(len(m.PeerURLs))`.  The ambient `math/rand`
source is modelled as the supplied sampler `randIntn`. -/
def PickPeerURL (randIntn : Nat → Nat) (m : Member) : PickResult :=
  let urls := m.PeerURLs.getD []
  if urls.length = 0 then .panicked (gs "member should always have some peer url")
  else .picked (urls.getD (randIntn urls.length) [])

/-- One hexadecimal digit byte, as `strconv.ParseUint` with base 16 accepts. -/
def hexDigit (c : Nat) : Option Nat :=
  if 48 ≤ c ∧ c ≤ 57 then some (c - 48)
  else if 97 ≤ c ∧ c ≤ 102 then some (c - 87)
  else if 65 ≤ c ∧ c ≤ 70 then some (c - 55)
  else none

/-- `types.IDFromString`: `strconv.ParseUint(s, 16, 64)` — a non-empty string of
hex digits whose value fits in 64 bits; anything else is an error. -/
def IDFromString (s : GoStr) : Option Nat :=
  if s = [] then none
  else
    let v := s.foldl
      (fun acc c =>
        match acc, hexDigit c with
        | some a, some d => some (a * 16 + d)
        | _, _ => none)
      (some 0)
    match v with
    | some x => if x < 18446744073709551616 then some x else none
    | none => none

/-- Remove trailing slash bytes, as `path.Base` does first. -/
def dropTrailingSlashes (p : GoStr) : GoStr := (p.reverse.dropWhile (fun c => c = 47)).reverse

/-- The bytes after the last slash. -/
def afterLastSlash (p : GoStr) : GoStr := (p.reverse.takeWhile (fun c => c ≠ 47)).reverse

/-- `path.Base`: the last element of a path, with trailing slashes removed;
`"."` for the empty path and `"/"` for an all-slash path. -/
def pathBase (p : GoStr) : GoStr :=
  if p = [] then [46]
  else
    let q := dropTrailingSlashes p
    let r := afterLastSlash q
    if r = [] then [47] else r

/-- `path.Join(a, b)` for the joins in this file: the suffix contains no slash
and the member keys written by the codec are already clean, so `Join` reduces
to slash concatenation (full `path.Clean` normalisation is not modelled). -/
def pathJoin (a b : GoStr) : GoStr := if a = [] then b else a ++ 47 :: b

/-- Modelled from the spec: the constant `raftAttributesSuffix` is defined
outside the given fragment; the spec names the raft-attributes child
`raftAttributes`. -/
def raftAttributesSuffix : GoStr := gs "raftAttributes"

/-- Modelled from the spec: the constant `attributesSuffix` is defined outside
the given fragment; the spec names the attributes child `attributes`. -/
def attributesSuffix : GoStr := gs "attributes"

/-- `store.NodeExtern`: a node of the hierarchical store with its key, an
optional value (`Value *string` — nil for directories), and child nodes. -/
inductive NodeExtern : Type where
  | mk : GoStr → Option GoStr → List NodeExtern → NodeExtern

/-- The `Key` field of a node. -/
def NodeExtern.Key : NodeExtern → GoStr
  | .mk k _ _ => k

/-- The `Value` field of a node. -/
def NodeExtern.Value : NodeExtern → Option GoStr
  | .mk _ v _ => v

/-- The `Nodes` field of a node (its children). -/
def NodeExtern.Nodes : NodeExtern → List NodeExtern
  | .mk _ _ ns => ns

/-- The decode errors `nodeToMember` builds with `fmt.Errorf`, with their
payloads (offending key, underlying unmarshal cause). -/
inductive DecodeError where
  | unknownKey (key : GoStr)
  | unmarshalRaftAttributesError (cause : GoStr)
  | raftAttributesMissing
  | unmarshalAttributesError (cause : GoStr)
deriving DecidableEq

/-- Outcome of `nodeToMember`: either a panic (`log.Panicf` in
`mustParseMemberIDFromKey`, or a nil `*string` dereference in the child loop),
or the Go pair `(*Member, error)` of the normal returns. -/
inductive DecodeResult where
  | crash (msg : GoStr)
  | result (m : Option Member) (e : Option DecodeError)

/-- Outcome of the child-collection loop of `nodeToMember`. -/
inductive CollectResult where
  | crash
  | unknown (key : GoStr)
  | collected (raftVal attrVal : Option GoStr)
deriving DecidableEq

/-- The `for _, nn := range n.Nodes` loop of `nodeToMember`: reject the first
unrecognized child key; otherwise store `[]byte(*nn.Value)` into the map
(dereferencing a nil value crashes), where a later child with the same key
overwrites an earlier one.  Only the two recognized keys can be stored, so the
map is carried as its two possible entries. -/
def collectAttrs (raftAttrKey attrKey : GoStr) :
    List NodeExtern → Option GoStr → Option GoStr → CollectResult
  | [], r, a => .collected r a
  | nn :: rest, r, a =>
    if nn.Key ≠ raftAttrKey ∧ nn.Key ≠ attrKey then .unknown nn.Key
    else
      match nn.Value with
      | none => .crash
      | some v =>
        if nn.Key = raftAttrKey then collectAttrs raftAttrKey attrKey rest (some v) a
        else collectAttrs raftAttrKey attrKey rest r (some v)

/-- The raft-attributes child key of a member node, the local `raftAttrKey`
of `nodeToMember` (`path.Join(n.Key, raftAttributesSuffix)`). -/
def memberRaftAttrKey (n : NodeExtern) : GoStr := pathJoin n.Key raftAttributesSuffix

/-- The attributes child key of a member node, the local `attrKey` of
`nodeToMember` (`path.Join(n.Key, attributesSuffix)`). -/
def memberAttrKey (n : NodeExtern) : GoStr := pathJoin n.Key attributesSuffix

/-- `nodeToMember`: build a member from a store node.  The JSON codec is an
external collaborator (the spec treats the wire encoding as a given
serialization codec), so the two `json.Unmarshal` calls are modelled by the
supplied functions `unmarshalRaft` and `unmarshalAttrs`, each returning the
filled struct or the underlying cause.  On an attributes unmarshal failure Go
returns the partially built member together with the error; `json.Unmarshal`
may leave the target partially filled, which the model renders as the zero
`Attributes` (no theorem relies on the attributes of the partial record). -/
def nodeToMember (unmarshalRaft : GoStr → Except GoStr RaftAttributes)
    (unmarshalAttrs : GoStr → Except GoStr Attributes) (n : NodeExtern) : DecodeResult :=
  match IDFromString (pathBase n.Key) with
  | none => .crash (gs "unexpected parse member id error")
  | some id =>
    match collectAttrs (memberRaftAttrKey n) (memberAttrKey n) n.Nodes none none with
    | .crash => .crash (gs "nil pointer dereference")
    | .unknown k => .result none (some (.unknownKey k))
    | .collected raftVal attrVal =>
      match raftVal with
      | none => .result none (some .raftAttributesMissing)
      | some data =>
        match unmarshalRaft data with
        | .error cause => .result none (some (.unmarshalRaftAttributesError cause))
        | .ok ra =>
          match attrVal with
          | none =>
            .result (some { ID := id, raftAttributes := ra
                          , attributes := { Name := [], ClientURLs := none } }) none
          | some data2 =>
            match unmarshalAttrs data2 with
            | .error cause =>
              .result (some { ID := id, raftAttributes := ra
                            , attributes := { Name := [], ClientURLs := none } })
                (some (.unmarshalAttributesError cause))
            | .ok at2 =>
              .result (some { ID := id, raftAttributes := ra, attributes := at2 }) none

/-- Outcome of one `http.Client.Get` against a URL: the transport either fails
with an error, or yields a response whose body read yields bytes or an error. -/
inductive GetResult where
  | fail (e : GoStr)
  | ok (bodyRead : Except GoStr GoStr)

/-- The endpoint loop of `getVersion`, carrying the outer `err` variable.  A
transport failure assigns the outer `err` (`resp, err = cc.Get(...)`); a
transport success also assigns it (to nil), and the later read and unmarshal
failures bind fresh shadowed `err` variables (`b, err := ...`,
`if err := ...`), leaving the outer one nil. -/
def getVersionLoop (httpGet : GoStr → GetResult) (unmarshalVersions : GoStr → Option GoStr) :
    List GoStr → Option GoStr → GoStr × Option GoStr
  | [], err => ([], err)
  | u :: rest, _ =>
    match httpGet (u ++ gs "/version") with
    | .fail e => getVersionLoop httpGet unmarshalVersions rest (some e)
    | .ok bodyRead =>
      match bodyRead with
      | .error _ => getVersionLoop httpGet unmarshalVersions rest none
      | .ok b =>
        match unmarshalVersions b with
        | none => getVersionLoop httpGet unmarshalVersions rest none
        | some server => (server, none)

/-- `getVersion`: probe the member's peer URLs in stored order; the JSON parse
of the body into `version.Versions` (yielding its `Server` field) is modelled
by `unmarshalVersions`, and the HTTP client by `httpGet`. -/
def getVersion (httpGet : GoStr → GetResult) (unmarshalVersions : GoStr → Option GoStr)
    (m : Member) : GoStr × Option GoStr :=
  getVersionLoop httpGet unmarshalVersions (m.PeerURLs.getD []) none

/-- The value the child loop's `attrs` map finally holds at key `k`: the last
matching child's `Value` (a later child with the same key overwrites an
earlier one, as a map assignment does). -/
def lastValue (k : GoStr) (ns : List NodeExtern) : Option GoStr :=
  ns.foldl (fun acc nn => if nn.Key = k then nn.Value else acc) none

/-- A stub raft-attributes codec for concrete decode tests: always succeeds. -/
def uRw : GoStr -> Except GoStr RaftAttributes := fun _ => .ok { PeerURLs := some [gs "u"] }

/-- A stub attributes codec for concrete decode tests: always fails. -/
def uAw : GoStr -> Except GoStr Attributes := fun _ => .error (gs "boom")

/-- Concrete member subtree: identity segment "a", both blobs present. -/
def nodeBothBlobs : NodeExtern :=
  .mk (gs "/members/a") none
    [.mk (pathJoin (gs "/members/a") raftAttributesSuffix) (some (gs "RB")) [],
     .mk (pathJoin (gs "/members/a") attributesSuffix) (some (gs "AB")) []]

/-- Concrete member subtree: a raft-attributes child with an absent value
followed by a child with an unrecognized key. -/
def nodeNilThenUnknown : NodeExtern :=
  .mk (gs "/members/a") none
    [.mk (pathJoin (gs "/members/a") raftAttributesSuffix) none [],
     .mk (gs "bogus") (some []) []]

/-- Concrete member subtree: no children at all. -/
def nodeNoChildren : NodeExtern := .mk (gs "/members/a") none []

/-- Concrete member subtree: a child with an unrecognized key followed by a
raft-attributes child with an absent value. -/
def nodeUnknownThenNil : NodeExtern :=
  .mk (gs "/members/a") none
    [.mk (gs "bogus") (some []) [],
     .mk (pathJoin (gs "/members/a") raftAttributesSuffix) none []]

/-- Concrete member subtree: only a raft-attributes child, value absent. -/
def nodeNilRaftValue : NodeExtern :=
  .mk (gs "/members/a") none
    [.mk (pathJoin (gs "/members/a") raftAttributesSuffix) none []]

/-- `strLe` is total: Go string comparison orders any two strings. -/
theorem strLe_total (a b : GoStr) : StrLeR a b ∨ StrLeR b a := by
  unfold StrLeR
  induction a generalizing b with
  | nil => left; rfl
  | cons x s ih =>
    cases b with
    | nil => right; rfl
    | cons y t =>
      by_cases hxy : x < y
      · left; simp [strLe, hxy]
      · by_cases hyx : y < x
        · right; simp [strLe, hyx]
        · rcases ih t with h | h
          · left; simp [strLe, hxy, hyx, h]
          · right; simp [strLe, hxy, hyx, h]

/-- `strLe` is transitive. -/
theorem strLe_trans (a : GoStr) : ∀ b c, StrLeR a b → StrLeR b c → StrLeR a c := by
  unfold StrLeR
  induction a with
  | nil => intro b c _ _; rfl
  | cons x s ih =>
    intro b c hab hbc
    cases b with
    | nil => simp [strLe] at hab
    | cons y t =>
      cases c with
      | nil => simp [strLe] at hbc
      | cons z u =>
        by_cases h1 : x < y
        · by_cases h2 : y < z
          · simp [strLe, show x < z from Nat.lt_trans h1 h2]
          · by_cases h3 : z < y
            · simp [strLe, h2, h3] at hbc
            · have hyz : y = z := by omega
              subst hyz
              simp [strLe, h1]
        · by_cases h3 : y < x
          · simp [strLe, h1, h3] at hab
          · have hxy : x = y := by omega
            subst hxy
            simp only [strLe, if_neg h1, if_neg h3] at hab
            by_cases h2 : x < z
            · simp [strLe, h2]
            · by_cases h4 : z < x
              · simp [strLe, h2, h4] at hbc
              · simp only [strLe, if_neg h2, if_neg h4] at hbc ⊢
                exact ih t u hab hbc

/-- `strLe` is antisymmetric: mutually comparable strings are equal. -/
theorem strLe_antisymm (a : GoStr) : ∀ b, StrLeR a b → StrLeR b a → a = b := by
  unfold StrLeR
  induction a with
  | nil =>
    intro b _ hba
    cases b with
    | nil => rfl
    | cons y t => simp [strLe] at hba
  | cons x s ih =>
    intro b hab hba
    cases b with
    | nil => simp [strLe] at hab
    | cons y t =>
      by_cases h1 : x < y
      · simp [strLe, h1, Nat.lt_asymm h1] at hba
      · by_cases h2 : y < x
        · simp [strLe, h1, h2] at hab
        · have hxy : x = y := by omega
          subst hxy
          simp only [strLe, if_neg h1] at hab hba
          rw [ih t hab hba]

instance : IsTotal GoStr StrLeR := ⟨strLe_total⟩

instance : IsTrans GoStr StrLeR := ⟨fun a b c => strLe_trans a b c⟩

instance : IsAntisymm GoStr StrLeR := ⟨fun a b => strLe_antisymm a b⟩

/-- Sorting permutes the input. -/
theorem sortStrings_perm (l : List GoStr) : List.Perm (sortStrings l) l :=
  List.perm_insertionSort StrLeR l

/-- Sorting sorts. -/
theorem sortStrings_sorted (l : List GoStr) : List.Sorted StrLeR (sortStrings l) :=
  List.sorted_insertionSort StrLeR l

/-- Permuted inputs sort to the same list. -/
theorem sortStrings_eq_of_perm {l1 l2 : List GoStr} (h : List.Perm l1 l2) :
    sortStrings l1 = sortStrings l2 :=
  List.eq_of_perm_of_sorted ((sortStrings_perm l1).trans (h.trans (sortStrings_perm l2).symm))
    (sortStrings_sorted l1) (sortStrings_sorted l2)

/-- The byte-appending loop of `NewMember` concatenates the strings. -/
theorem foldl_append_eq_flatten (l : List GoStr) (acc : List Nat) :
    l.foldl (fun a p => a ++ p) acc = acc ++ l.flatten := by
  induction l generalizing acc with
  | nil => simp
  | cons x s ih => simp [ih, List.append_assoc]

/-- `NewMember` derives the ID exactly as the spec-side `deriveIdentity` words it. -/
theorem newMember_ID_eq (name : GoStr) (peerURLs : List GoStr) (clusterName : GoStr)
    (now : Option Int) :
    (NewMember name peerURLs clusterName now).ID = deriveIdentity name peerURLs clusterName now := by
  unfold NewMember deriveIdentity
  cases now with
  | none => simp [foldl_append_eq_flatten, beUint64, List.take_take]
  | some t => simp [foldl_append_eq_flatten, beUint64, List.take_take, List.append_assoc]

/-- C1: the claim says the sorted order is not persisted into the returned
record, i.e. the record keeps the caller-supplied order.  Counterexample:
`sort.Strings(m.PeerURLs)` sorts the record's own slice, so with caller order
["b", "a"] the returned record holds ["a", "b"]. -/
theorem C1_counterexample :
    ¬ (NewMember (gs "m") [gs "b", gs "a"] (gs "salt") none).PeerURLs =
        some [gs "b", gs "a"] := by
  decide

/-- C1 (amended): the sorted order IS persisted — the returned record's
routing endpoints equal the lexicographically sorted caller-supplied
sequence.  The other fields are unaffected by the sorting step: the display
name is stored as given and the client endpoints are left absent. -/
theorem C1_record_fields (name : GoStr) (peerURLs : List GoStr) (clusterName : GoStr)
    (now : Option Int) :
    (NewMember name peerURLs clusterName now).PeerURLs = some (sortStrings peerURLs) ∧
    (NewMember name peerURLs clusterName now).Name = name ∧
    (NewMember name peerURLs clusterName now).ClientURLs = none :=
  ⟨rfl, rfl, rfl⟩

/-- C3: the claim says an empty routing-endpoint sequence is rejected with an
error.  Counterexample: `NewMember` has no error path; with no endpoints it
derives the identity by hashing just the remaining input (the cluster salt
here, there being no timestamp). -/
theorem C3_counterexample :
    (NewMember (gs "m") [] (gs "etcd-cluster") none).ID =
      beUint64 (sha1 (gs "etcd-cluster")) :=
  rfl

/-- C3 (amended): `NewMember` does not reject an empty routing-endpoint
sequence; it silently computes the identity from the salt and the optional
timestamp alone, exactly as the derivation formula with no endpoint bytes. -/
theorem C3_empty_endpoints_hash (name : GoStr) (clusterName : GoStr) (now : Option Int) :
    (NewMember name [] clusterName now).ID = deriveIdentity name [] clusterName now :=
  newMember_ID_eq name [] clusterName now

/-- C4: for every non-empty endpoint sequence, salt and optional creation
time, the derived identity is the first 8 bytes, big-endian, of the SHA-1
digest of the sorted endpoints concatenated, then the salt, then the decimal
Unix timestamp when present. -/
theorem C4_identity_formula (name : GoStr) (peerURLs : List GoStr) (clusterName : GoStr)
    (now : Option Int) (hne : peerURLs ≠ []) :
    (NewMember name peerURLs clusterName now).ID = deriveIdentity name peerURLs clusterName now :=
  newMember_ID_eq name peerURLs clusterName now

/-- Witness for C4 at a concrete member. -/
theorem C4_identity_formula_witness :
    ([gs "http://a"] : List GoStr) ≠ [] ∧
      (NewMember (gs "m") [gs "http://a"] (gs "cl") (some 99)).ID =
        deriveIdentity (gs "m") [gs "http://a"] (gs "cl") (some 99) :=
  ⟨by decide, C4_identity_formula (gs "m") [gs "http://a"] (gs "cl") (some 99) (by decide)⟩

/-- C5: identity derivation is invariant under permutations of a non-empty
endpoint sequence (sort-before-hash makes the order irrelevant). -/
theorem C5_permutation_invariance (name clusterName : GoStr) (now : Option Int)
    (E1 E2 : List GoStr) (hne : E1 ≠ []) (hperm : List.Perm E1 E2) :
    (NewMember name E1 clusterName now).ID = (NewMember name E2 clusterName now).ID := by
  have hs : sortStrings E1 = sortStrings E2 := sortStrings_eq_of_perm hperm
  unfold NewMember
  rw [hs]

/-- Witness for C5 at a concrete permuted pair. -/
theorem C5_permutation_invariance_witness :
    ([gs "b", gs "a"] : List GoStr) ≠ [] ∧
      List.Perm [gs "b", gs "a"] [gs "a", gs "b"] ∧
      (NewMember (gs "m") [gs "b", gs "a"] (gs "cl") (some 1)).ID =
        (NewMember (gs "m") [gs "a", gs "b"] (gs "cl") (some 1)).ID :=
  ⟨by decide, List.Perm.swap (gs "a") (gs "b") [],
    C5_permutation_invariance (gs "m") (gs "cl") (some 1) [gs "b", gs "a"] [gs "a", gs "b"]
      (by decide) (List.Perm.swap (gs "a") (gs "b") [])⟩

/-- C8: deep copy maps a nil record to nil without error, reproduces every
field (identity, routing endpoints, display name, client endpoints), and
yields absent endpoint sequences for absent inputs rather than empty ones.
Fresh allocation of the slices is a memory-layout property with no further
observable content in this value-level model; its observable consequence —
the copy equals the original in all fields — is what is proved. -/
theorem C8_clone_identity :
    Clone none = none ∧ ∀ m : Member, Clone (some m) = some m := by
  refine ⟨rfl, fun m => ?_⟩
  obtain ⟨id, ⟨pu⟩, ⟨nm, cu⟩⟩ := m
  cases pu <;> cases cu <;>
    simp [Clone, copySlice, Member.PeerURLs, Member.Name, Member.ClientURLs]

/-- C9: picking a routing endpoint panics exactly when the sequence is empty,
and otherwise returns the element at the sampled index — an element of the
sequence.  The sampler stands for `rand.Intn`, whose contract is to return a
value below its positive argument; uniformity of the choice is inherited from
the sampler, since the element is indexed directly by the sample. -/
theorem C9_pick_peer_url (randIntn : Nat → Nat) (m : Member)
    (hr : ∀ n, 0 < n → randIntn n < n) :
    ((m.PeerURLs.getD []).length = 0 →
      PickPeerURL randIntn m = .panicked (gs "member should always have some peer url")) ∧
    (0 < (m.PeerURLs.getD []).length →
      PickPeerURL randIntn m =
          .picked ((m.PeerURLs.getD []).getD (randIntn (m.PeerURLs.getD []).length) []) ∧
        (m.PeerURLs.getD []).getD (randIntn (m.PeerURLs.getD []).length) [] ∈
          m.PeerURLs.getD []) := by
  constructor
  · intro h
    simp [PickPeerURL, h]
  · intro h
    have hlt := hr _ h
    have h0 : ¬ (m.PeerURLs.getD []).length = 0 := by omega
    refine ⟨by simp [PickPeerURL, h0], ?_⟩
    rw [List.getD_eq_getElem _ _ hlt]
    exact List.getElem_mem hlt

/-- Witness for C9: a one-endpoint member with the zero sampler. -/
theorem C9_pick_peer_url_witness :
    PickPeerURL (fun _ => 0) ⟨1, ⟨some [gs "http://a"]⟩, ⟨[], none⟩⟩ = .picked (gs "http://a") :=
  ((C9_pick_peer_url (fun _ => 0) ⟨1, ⟨some [gs "http://a"]⟩, ⟨[], none⟩⟩ (fun n h => h)).2
    (by decide)).1

/-- C2 (code bug): a member whose only endpoint yields a transport success
whose body fails to parse as a version descriptor.  The claim — and the
function's own comment, "Returns the last error if it fails to get the
version" — requires the error of the last endpoint; the code returns no
error at all, because `b, err := ioutil.ReadAll(...)` and
`if err := json.Unmarshal(...)` bind fresh shadowed variables while the
successful `cc.Get` reset the outer `err` to nil. -/
theorem C2_last_error_lost :
    getVersion (fun _ => .ok (.ok (gs "not-json"))) (fun _ => none)
        ⟨1, ⟨some [gs "http://a"]⟩, ⟨[], none⟩⟩ = ([], none) :=
  rfl

/-- The two child keys of a member node are distinct. -/
theorem memberKeys_ne (n : NodeExtern) : memberRaftAttrKey n ≠ memberAttrKey n := by
  have hsuf : raftAttributesSuffix ≠ attributesSuffix := by decide
  unfold memberRaftAttrKey memberAttrKey pathJoin
  by_cases h : n.Key = ([] : GoStr)
  · simp only [if_pos h]
    exact hsuf
  · simp only [if_neg h]
    intro hc
    have h2 := List.append_cancel_left hc
    injection h2 with _ h3
    exact hsuf h3

/-- When every child carries a recognized key and a present value, the child
loop completes and its map holds, at each key, the last matching value. -/
theorem collectAttrs_collected (raftK attrK : GoStr) (hne : raftK ≠ attrK) :
    ∀ (ns : List NodeExtern) (r a : Option GoStr),
      (∀ nn ∈ ns, (nn.Key = raftK ∨ nn.Key = attrK) ∧ nn.Value.isSome = true) →
      collectAttrs raftK attrK ns r a =
        .collected (ns.foldl (fun acc nn => if nn.Key = raftK then nn.Value else acc) r)
          (ns.foldl (fun acc nn => if nn.Key = attrK then nn.Value else acc) a) := by
  intro ns
  induction ns with
  | nil => intro r a _; rfl
  | cons nn rest ih =>
    intro r a hall
    obtain ⟨hk, hv⟩ := hall nn (List.mem_cons_self nn rest)
    have hrest : ∀ x ∈ rest, (x.Key = raftK ∨ x.Key = attrK) ∧ x.Value.isSome = true :=
      fun x hx => hall x (List.mem_cons_of_mem nn hx)
    obtain ⟨v, hvv⟩ := Option.isSome_iff_exists.mp hv
    have hcond : ¬ (nn.Key ≠ raftK ∧ nn.Key ≠ attrK) := by
      rcases hk with hk | hk <;> simp [hk]
    rcases hk with hk | hk
    · simp only [collectAttrs, if_neg hcond, hvv, if_pos hk]
      rw [ih (some v) a hrest]
      have hka : ¬ nn.Key = attrK := by rw [hk]; exact hne
      simp [List.foldl_cons, hk, hvv, hka, hne]
    · have hkr : ¬ nn.Key = raftK := by rw [hk]; exact fun hc => hne hc.symm
      simp only [collectAttrs, if_neg hcond, hvv, if_neg hkr]
      rw [ih r (some v) hrest]
      have hne2 : ¬ attrK = raftK := fun hc => hne hc.symm
      simp [List.foldl_cons, hk, hvv, hkr, hne2]

/-- Under the same recognition and presence conditions, the loop started on
empty accumulators yields exactly the two `lastValue` map entries. -/
theorem collectAttrs_lastValue (raftK attrK : GoStr) (hne : raftK ≠ attrK)
    (ns : List NodeExtern)
    (hall : ∀ nn ∈ ns, (nn.Key = raftK ∨ nn.Key = attrK) ∧ nn.Value.isSome = true) :
    collectAttrs raftK attrK ns none none =
      .collected (lastValue raftK ns) (lastValue attrK ns) :=
  collectAttrs_collected raftK attrK hne ns none none hall

/-- When every child value is present but some child key is unrecognized, the
child loop rejects a key. -/
theorem collectAttrs_unknown_exists (raftK attrK : GoStr) :
    ∀ (ns : List NodeExtern) (r a : Option GoStr),
      (∀ nn ∈ ns, nn.Value.isSome = true) →
      (∃ nn ∈ ns, nn.Key ≠ raftK ∧ nn.Key ≠ attrK) →
      ∃ k, collectAttrs raftK attrK ns r a = .unknown k := by
  intro ns
  induction ns with
  | nil =>
    intro r a _ hex
    simp at hex
  | cons nn rest ih =>
    intro r a hval hex
    by_cases hc : nn.Key ≠ raftK ∧ nn.Key ≠ attrK
    · exact ⟨nn.Key, by simp only [collectAttrs, if_pos hc]⟩
    · obtain ⟨v, hvv⟩ := Option.isSome_iff_exists.mp (hval nn (List.mem_cons_self nn rest))
      have hex2 : ∃ x ∈ rest, x.Key ≠ raftK ∧ x.Key ≠ attrK := by
        rcases hex with ⟨x, hx, hxk⟩
        rcases List.mem_cons.mp hx with rfl | hx2
        · exact absurd hxk hc
        · exact ⟨x, hx2, hxk⟩
      have hvrest : ∀ x ∈ rest, x.Value.isSome = true :=
        fun x hx => hval x (List.mem_cons_of_mem nn hx)
      by_cases hr1 : nn.Key = raftK
      · simp only [collectAttrs, if_neg hc, hvv, if_pos hr1]
        exact ih (some v) a hvrest hex2
      · simp only [collectAttrs, if_neg hc, hvv, if_neg hr1]
        exact ih r (some v) hvrest hex2

/-- When every child key is recognized but some child value is absent, the
child loop dereferences a nil `*string` and crashes. -/
theorem collectAttrs_crash_of_nil_value (raftK attrK : GoStr) :
    ∀ (ns : List NodeExtern) (r a : Option GoStr),
      (∀ nn ∈ ns, nn.Key = raftK ∨ nn.Key = attrK) →
      (∃ nn ∈ ns, nn.Value = none) →
      collectAttrs raftK attrK ns r a = .crash := by
  intro ns
  induction ns with
  | nil =>
    intro r a _ hex
    simp at hex
  | cons nn rest ih =>
    intro r a hrec hex
    have hc : ¬ (nn.Key ≠ raftK ∧ nn.Key ≠ attrK) := by
      rcases hrec nn (List.mem_cons_self nn rest) with hk | hk <;> simp [hk]
    have hrrest : ∀ x ∈ rest, x.Key = raftK ∨ x.Key = attrK :=
      fun x hx => hrec x (List.mem_cons_of_mem nn hx)
    cases hvv : nn.Value with
    | none => simp only [collectAttrs, if_neg hc, hvv]
    | some v =>
      have hex2 : ∃ x ∈ rest, x.Value = none := by
        rcases hex with ⟨x, hx, hxv⟩
        rcases List.mem_cons.mp hx with rfl | hx2
        · rw [hvv] at hxv; cases hxv
        · exact ⟨x, hx2, hxv⟩
      by_cases hr1 : nn.Key = raftK
      · simp only [collectAttrs, if_neg hc, hvv, if_pos hr1]
        exact ih (some v) a hrrest hex2
      · simp only [collectAttrs, if_neg hc, hvv, if_neg hr1]
        exact ih r (some v) hrrest hex2

/-- C6: for a member node whose children all carry recognized keys and
present values, with a raft-attributes blob that deserializes successfully:
a present attributes blob that fails to deserialize yields both the error and
the partially built record (the parsed identity and routing attributes are
kept); an absent attributes blob is no error and yields the record with
absent display name and client endpoints. -/
theorem C6_attributes_blob_optional (uR : GoStr → Except GoStr RaftAttributes)
    (uA : GoStr → Except GoStr Attributes) (n : NodeExtern) (i : Nat) (rb : GoStr)
    (ra : RaftAttributes)
    (hid : IDFromString (pathBase n.Key) = some i)
    (hall : ∀ nn ∈ n.Nodes, (nn.Key = memberRaftAttrKey n ∨ nn.Key = memberAttrKey n) ∧
      nn.Value.isSome = true)
    (hraft : lastValue (memberRaftAttrKey n) n.Nodes = some rb)
    (hra : uR rb = .ok ra) :
    (∀ ab cause, lastValue (memberAttrKey n) n.Nodes = some ab → uA ab = .error cause →
      nodeToMember uR uA n =
        .result (some { ID := i, raftAttributes := ra
                      , attributes := { Name := [], ClientURLs := none } })
          (some (.unmarshalAttributesError cause))) ∧
    (lastValue (memberAttrKey n) n.Nodes = none →
      nodeToMember uR uA n =
        .result (some { ID := i, raftAttributes := ra
                      , attributes := { Name := [], ClientURLs := none } })
          none) := by
  have hcol := collectAttrs_lastValue (memberRaftAttrKey n) (memberAttrKey n)
    (memberKeys_ne n) n.Nodes hall
  constructor
  · intro ab cause hab hua
    simp only [nodeToMember, hid, hcol, hraft, hab, hra, hua]
  · intro hab
    simp only [nodeToMember, hid, hcol, hraft, hab, hra]

/-- Witness for C6: both blobs present, the attributes blob failing to parse
yields the error together with the partial record. -/
theorem C6_attributes_blob_optional_witness :
    nodeToMember uRw uAw nodeBothBlobs =
      .result (some { ID := 10, raftAttributes := { PeerURLs := some [gs "u"] }
                    , attributes := { Name := [], ClientURLs := none } })
        (some (.unmarshalAttributesError (gs "boom"))) :=
  (C6_attributes_blob_optional uRw uAw nodeBothBlobs 10 (gs "RB")
      { PeerURLs := some [gs "u"] } (by decide) (by decide) (by decide) rfl).1
    (gs "AB") (gs "boom") (by decide) rfl

/-- C7 as stated is falsified by an absent child value: this node contains a
child whose key is unrecognized, so the claim requires an unknown-key error
and no record, but the child loop crashes first on the nil value of the
preceding raft-attributes child. -/
theorem C7_counterexample :
    nodeToMember uRw uAw nodeNilThenUnknown = .crash (gs "nil pointer dereference") :=
  rfl

/-- C7 (amended): under the additional precondition that every child carries a
present value, a member node with a well-formed identity segment decodes to an
error with no record exactly when some child key is unrecognized, or the
raft-attributes blob is absent, or it is present but fails to deserialize. -/
theorem C7_decode_error_iff (uR : GoStr → Except GoStr RaftAttributes)
    (uA : GoStr → Except GoStr Attributes) (n : NodeExtern) (i : Nat)
    (hid : IDFromString (pathBase n.Key) = some i)
    (hval : ∀ nn ∈ n.Nodes, nn.Value.isSome = true) :
    (∃ e, nodeToMember uR uA n = .result none (some e)) ↔
      ((∃ nn ∈ n.Nodes, nn.Key ≠ memberRaftAttrKey n ∧ nn.Key ≠ memberAttrKey n) ∨
        lastValue (memberRaftAttrKey n) n.Nodes = none ∨
        (∃ rb cause, lastValue (memberRaftAttrKey n) n.Nodes = some rb ∧
          uR rb = .error cause)) := by
  by_cases hun : ∃ nn ∈ n.Nodes, nn.Key ≠ memberRaftAttrKey n ∧ nn.Key ≠ memberAttrKey n
  · obtain ⟨k, hk⟩ :=
      collectAttrs_unknown_exists (memberRaftAttrKey n) (memberAttrKey n) n.Nodes none none
        hval hun
    constructor
    · intro _
      exact Or.inl hun
    · intro _
      exact ⟨.unknownKey k, by simp only [nodeToMember, hid, hk]⟩
  · have hall : ∀ nn ∈ n.Nodes,
        (nn.Key = memberRaftAttrKey n ∨ nn.Key = memberAttrKey n) ∧ nn.Value.isSome = true := by
      intro nn hnn
      refine ⟨?_, hval nn hnn⟩
      by_contra hc
      push_neg at hc
      exact hun ⟨nn, hnn, hc.1, hc.2⟩
    have hcol := collectAttrs_lastValue (memberRaftAttrKey n) (memberAttrKey n)
      (memberKeys_ne n) n.Nodes hall
    cases hraft : lastValue (memberRaftAttrKey n) n.Nodes with
    | none =>
      constructor
      · intro _
        exact Or.inr (Or.inl rfl)
      · intro _
        exact ⟨.raftAttributesMissing, by simp only [nodeToMember, hid, hcol, hraft]⟩
    | some rb =>
      cases hur : uR rb with
      | error cause =>
        constructor
        · intro _
          exact Or.inr (Or.inr ⟨rb, cause, rfl, hur⟩)
        · intro _
          exact ⟨.unmarshalRaftAttributesError cause,
            by simp only [nodeToMember, hid, hcol, hraft, hur]⟩
      | ok ra =>
        constructor
        · rintro ⟨e, he⟩
          exfalso
          cases hattr : lastValue (memberAttrKey n) n.Nodes with
          | none => simp [nodeToMember, hid, hcol, hraft, hur, hattr] at he
          | some ab =>
            cases hua : uA ab with
            | error cause => simp [nodeToMember, hid, hcol, hraft, hur, hattr, hua] at he
            | ok at2 => simp [nodeToMember, hid, hcol, hraft, hur, hattr, hua] at he
        · rintro (h | h | ⟨rb2, cause, h1, h2⟩)
          · exact absurd h hun
          · cases h
          · injection h1 with h1
            subst h1
            rw [hur] at h2
            cases h2
/-- Witness for C7: a node with no children has the raft blob absent, and the
iff holds there with both sides true. -/
theorem C7_decode_error_iff_witness :
    (∃ e, nodeToMember uRw uAw nodeNoChildren = .result none (some e)) ↔
      ((∃ nn ∈ nodeNoChildren.Nodes,
          nn.Key ≠ memberRaftAttrKey nodeNoChildren ∧
          nn.Key ≠ memberAttrKey nodeNoChildren) ∨
        lastValue (memberRaftAttrKey nodeNoChildren) nodeNoChildren.Nodes = none ∨
        (∃ rb cause,
          lastValue (memberRaftAttrKey nodeNoChildren) nodeNoChildren.Nodes = some rb ∧
          uRw rb = .error cause)) :=
  C7_decode_error_iff uRw uAw nodeNoChildren 10 (by decide) (by decide)

/-- C10 as stated is falsified by ordering: this node contains a
raft-attributes child with an absent value, so the claim requires a crash,
but the loop rejects the preceding unrecognized key first and returns a
decode error instead. -/
theorem C10_counterexample :
    nodeToMember uRw uAw nodeUnknownThenNil = .result none (some (.unknownKey (gs "bogus"))) :=
  rfl

/-- C10 (amended): for a member node with a well-formed identity segment all
of whose children carry recognized keys, a child with an absent value makes
`nodeToMember` crash with a nil dereference instead of returning a decode
error. -/
theorem C10_nil_value_crash (uR : GoStr → Except GoStr RaftAttributes)
    (uA : GoStr → Except GoStr Attributes) (n : NodeExtern) (i : Nat)
    (hid : IDFromString (pathBase n.Key) = some i)
    (hrec : ∀ nn ∈ n.Nodes, nn.Key = memberRaftAttrKey n ∨ nn.Key = memberAttrKey n)
    (hnil : ∃ nn ∈ n.Nodes, nn.Value = none) :
    nodeToMember uR uA n = .crash (gs "nil pointer dereference") := by
  have hc := collectAttrs_crash_of_nil_value (memberRaftAttrKey n) (memberAttrKey n)
    n.Nodes none none hrec hnil
  simp only [nodeToMember, hid, hc]

/-- Witness for C10: a single raft-attributes child with an absent value. -/
theorem C10_nil_value_crash_witness :
    nodeToMember uRw uAw nodeNilRaftValue = .crash (gs "nil pointer dereference") :=
  C10_nil_value_crash uRw uAw nodeNilRaftValue 10 (by decide) (by decide) (by decide)
